import Mathlib

/-!
Shallow embedding of the alamid-junction repository (src/lib/Junction.js).

A `Junction` unifies plain stored values and signal-backed values behind one
get/set interface.  JavaScript objects used as string-keyed dictionaries are
modelled as insertion-ordered association lists; the `undefined` value is
`JSV.undefined`.  The internal `_values` and `_signals` mappings are `Option`s so
that `dispose` can set them to `null`.  Signals created by the junction are
identified by a creation counter (`nextSig`); each signal's current value
lives in `sigVals`, and `disposeLog` records every `dispose()` call made on a
signal.  The Signal collaborator itself is an external dependency
(alamid-signal); its observable-cell behaviour is modelled from the spec's
Signal capability interface (callable read/write, one subscribed listener
notified synchronously on write, initial value `undefined`).
-/

set_option autoImplicit false
set_option linter.unusedSectionVars false

namespace AlamidJunction

/-- A JavaScript value: either `undefined` or a defined value of type `α`. -/
inductive JSV (α : Type) where
  | undefined : JSV α
  | val : α → JSV α
deriving DecidableEq

/-- Property assignment `obj[k] = v` on a JS object modelled as an
insertion-ordered association list: an existing key keeps its position, a new
key is appended. -/
def updEntry {κ β : Type} [DecidableEq κ] : List (κ × β) → κ → β → List (κ × β)
  | [], k, v => [(k, v)]
  | (k', v') :: rest, k, v =>
      if k' = k then (k', v) :: rest else (k', v') :: updEntry rest k v

/-- Property lookup, `none` when the key is not an own property. -/
def findEntry {κ β : Type} [DecidableEq κ] (l : List (κ × β)) (k : κ) : Option β :=
  (l.find? (fun p => decide (p.1 = k))).map Prod.snd

/-- Property deletion `delete obj[k]`. -/
def delEntry {κ β : Type} [DecidableEq κ] (l : List (κ × β)) (k : κ) : List (κ × β) :=
  l.filter (fun p => !decide (p.1 = k))

/-- Property read `obj[k]`: `undefined` when the key is absent. -/
def jsRead {κ α : Type} [DecidableEq κ] (l : List (κ × JSV α)) (k : κ) : JSV α :=
  (findEntry l k).getD .undefined

/-- The own enumerable keys of an object, in insertion order. -/
def keysOf {κ β : Type} (l : List (κ × β)) : List κ := l.map Prod.fst

section AssocLemmas

variable {κ β : Type} [DecidableEq κ]

@[simp] theorem keysOf_nil : keysOf ([] : List (κ × β)) = [] := rfl

@[simp] theorem keysOf_cons (p : κ × β) (l : List (κ × β)) :
    keysOf (p :: l) = p.1 :: keysOf l := rfl

@[simp] theorem findEntry_nil (k : κ) : findEntry ([] : List (κ × β)) k = none := rfl

@[simp] theorem findEntry_cons (p : κ × β) (l : List (κ × β)) (k : κ) :
    findEntry (p :: l) k = if p.1 = k then some p.2 else findEntry l k := by
  by_cases h : p.1 = k <;> simp [findEntry, List.find?_cons, h]

@[simp] theorem delEntry_nil (k : κ) : delEntry ([] : List (κ × β)) k = [] := rfl

@[simp] theorem delEntry_cons (p : κ × β) (l : List (κ × β)) (k : κ) :
    delEntry (p :: l) k = if p.1 = k then delEntry l k else p :: delEntry l k := by
  by_cases h : p.1 = k <;> simp [delEntry, h]

theorem updEntry_cons (p : κ × β) (l : List (κ × β)) (k : κ) (v : β) :
    updEntry (p :: l) k v = if p.1 = k then (p.1, v) :: l else p :: updEntry l k v := by
  obtain ⟨p1, p2⟩ := p
  rfl

theorem findEntry_updEntry_self (l : List (κ × β)) (k : κ) (v : β) :
    findEntry (updEntry l k v) k = some v := by
  induction l with
  | nil => simp [updEntry]
  | cons p rest ih =>
      by_cases h : p.1 = k
      · simp [updEntry_cons, h]
      · simp [updEntry_cons, h, ih]

theorem findEntry_updEntry_ne (l : List (κ × β)) (k k' : κ) (v : β) (h : k' ≠ k) :
    findEntry (updEntry l k v) k' = findEntry l k' := by
  induction l with
  | nil => simp [updEntry, Ne.symm h]
  | cons p rest ih =>
      by_cases hp : p.1 = k
      · have hp' : p.1 ≠ k' := by rw [hp]; exact Ne.symm h
        simp [updEntry_cons, hp, hp', Ne.symm h]
      · simp [updEntry_cons, hp, ih]

theorem updEntry_absent (l : List (κ × β)) (k : κ) (v : β) (h : ¬ k ∈ keysOf l) :
    updEntry l k v = l ++ [(k, v)] := by
  induction l with
  | nil => rfl
  | cons p rest ih =>
      simp only [keysOf_cons, List.mem_cons] at h
      push_neg at h
      simp [updEntry_cons, Ne.symm h.1, ih h.2]

theorem delEntry_updEntry_self (l : List (κ × β)) (k : κ) (v : β) :
    delEntry (updEntry l k v) k = delEntry l k := by
  induction l with
  | nil => simp [updEntry]
  | cons p rest ih =>
      by_cases h : p.1 = k
      · simp [updEntry_cons, h]
      · simp [updEntry_cons, h, ih]

theorem delEntry_absent (l : List (κ × β)) (k : κ) (h : ¬ k ∈ keysOf l) :
    delEntry l k = l := by
  induction l with
  | nil => rfl
  | cons p rest ih =>
      simp only [keysOf_cons, List.mem_cons] at h
      push_neg at h
      simp [delEntry_cons, Ne.symm h.1, ih h.2]

theorem findEntry_delEntry_self (l : List (κ × β)) (k : κ) :
    findEntry (delEntry l k) k = none := by
  induction l with
  | nil => rfl
  | cons p rest ih =>
      by_cases h : p.1 = k
      · simpa [delEntry_cons, h] using ih
      · simp [delEntry_cons, h, ih]

theorem findEntry_eq_none_iff (l : List (κ × β)) (k : κ) :
    findEntry l k = none ↔ ¬ k ∈ keysOf l := by
  induction l with
  | nil => simp
  | cons p rest ih =>
      by_cases h : p.1 = k
      · subst h
        simp
      · simp [h, Ne.symm h, ih]

theorem findEntry_of_mem_nodup (l : List (κ × β)) (k : κ) (v : β)
    (hnd : (keysOf l).Nodup) (hm : (k, v) ∈ l) : findEntry l k = some v := by
  induction l with
  | nil => cases hm
  | cons p rest ih =>
      simp only [keysOf_cons, List.nodup_cons] at hnd
      rcases List.mem_cons.1 hm with h | h
      · subst h
        simp
      · have hkm : k ∈ keysOf rest := by
          simpa [keysOf] using List.mem_map_of_mem Prod.fst h
        have hk : ¬ p.1 = k := fun he => hnd.1 (by rw [he]; exact hkm)
        simp [hk, ih hnd.2 h]

theorem mem_of_findEntry_eq_some (l : List (κ × β)) (k : κ) (v : β)
    (h : findEntry l k = some v) : (k, v) ∈ l := by
  induction l with
  | nil => simp at h
  | cons p rest ih =>
      obtain ⟨p1, p2⟩ := p
      by_cases hp : p1 = k
      · rw [findEntry_cons, if_pos hp] at h
        cases h
        subst hp
        exact List.mem_cons_self _ _
      · rw [findEntry_cons, if_neg hp] at h
        exact List.mem_cons_of_mem _ (ih h)

theorem mem_keysOf_updEntry (l : List (κ × β)) (k k' : κ) (v : β) :
    k' ∈ keysOf (updEntry l k v) ↔ k' ∈ keysOf l ∨ k' = k := by
  induction l with
  | nil => simp [updEntry]
  | cons p rest ih =>
      by_cases h : p.1 = k
      · subst h
        rw [updEntry_cons, if_pos rfl]
        simp only [keysOf_cons, List.mem_cons]
        tauto
      · simp only [updEntry_cons, if_neg h, keysOf_cons, List.mem_cons, ih]
        tauto

end AssocLemmas

/-- State of one Junction instance (src/lib/Junction.js).  `values` models
`_values` and `signals` models `_signals`; both are `Option`s so that
`dispose` can set them to `null` (lines 200-201).  A signal created by the
junction is identified by a number (creation order); `sigVals` holds each
signal's current value, `nextSig` is the next fresh identifier, and
`disposeLog` logs each `dispose()` call made on a signal.  `hasSignalClass`
models `typeof this.Signal === "function"` (the prototype-level `Signal`
slot); `isDisposed` models the flag of the same name. -/
structure Junction (α : Type) where
  values : Option (List (String × JSV α))
  signals : Option (List (String × Nat))
  sigVals : List (Nat × JSV α)
  nextSig : Nat
  disposeLog : List Nat
  hasSignalClass : Bool
  isDisposed : Bool
deriving DecidableEq

variable {α : Type}

/-- The `_values` mapping of a live (non-disposed) junction. -/
def Junction.valuesL (st : Junction α) : List (String × JSV α) := st.values.getD []

/-- The `_signals` mapping of a live (non-disposed) junction. -/
def Junction.signalsL (st : Junction α) : List (String × Nat) := st.signals.getD []

/-- Reading a signal's current value (calling the signal with no argument). -/
def sigRead (st : Junction α) (id : Nat) : JSV α := jsRead st.sigVals id

/-- Models `Junction.prototype.setter` (lines 87-89): the default, identity
normalization hook.  Operations below take the current hook as an explicit
function argument `f` so that overridden hooks are covered too. -/
def defaultSetter : String → JSV α → JSV α := fun _ v => v

/-- Modelled from the spec: writing a value through a junction-created signal
(`signal(value)`).  The external Signal capability (spec section 6) stores
the value and synchronously notifies its single subscribed listener; the
listener installed at creation is `onSignalChange` (lines 174-176), which
writes `self.setter(key, newValue)` back into `_values`.  `f` is the
junction's setter hook and `k` the key the listener closed over. -/
def writeSignal (f : String → JSV α → JSV α) (st : Junction α) (k : String) (id : Nat)
    (v : JSV α) : Junction α :=
  { st with sigVals := updEntry st.sigVals id v,
            values := st.values.map (fun vs => updEntry vs k (f k v)) }

/-- The module-private `setter(junction, key, value)` (lines 219-227): routes
the (already hook-processed) value through the key's signal when one exists,
otherwise writes the plain-value mapping directly. -/
def setter (f : String → JSV α → JSV α) (st : Junction α) (k : String) (v : JSV α) :
    Junction α :=
  match findEntry st.signalsL k with
  | some id => writeSignal f st k id v
  | none => { st with values := st.values.map (fun vs => updEntry vs k v) }

/-- Models `Junction.prototype.set(key, value)`, the two-argument path
(lines 60-75): applies the hook once and hands the result to the
module-private setter.  The JS method ends with `return this`; the returned
state models that returned junction. -/
def Junction.set (f : String → JSV α → JSV α) (st : Junction α) (k : String) (v : JSV α) :
    Junction α :=
  setter f st k (f k v)

/-- Models `Junction.prototype.set(object)`, the one-argument path (lines 63-69):
iterates the argument's own enumerable entries in insertion order. -/
def Junction.setObj (f : String → JSV α → JSV α) (st : Junction α)
    (entries : List (String × JSV α)) : Junction α :=
  entries.foldl (fun s p => setter f s p.1 (f p.1 p.2)) st

/-- Models `Junction.prototype.get(key)` (lines 101-103): `this._values[key]`. -/
def Junction.get1 (st : Junction α) (k : String) : JSV α := jsRead st.valuesL k

/-- The copy loop of `Junction.prototype.get()` with no argument
(lines 105-113): `result = {}`, then `result[key] = this._values[key]` for
every own key of `_values`. -/
def snapshotCopy (src : List (String × JSV α)) : List (String × JSV α) :=
  src.foldl (fun acc p => updEntry acc p.1 (jsRead src p.1)) []

/-- Contents of the fresh snapshot object `Junction.prototype.get()` returns
when called with no argument.  Freshness of the object itself is treated at
heap level by `getSnapshotH`. -/
def Junction.getAll (st : Junction α) : List (String × JSV α) := snapshotCopy st.valuesL

/-- Models `Junction.prototype.reset` (lines 121-133): assigns a fresh empty
`_values` mapping, then pushes `undefined` through every signal (each
subscribe listener re-adds its key to `_values`); returns this. -/
def Junction.reset (f : String → JSV α → JSV α) (st : Junction α) : Junction α :=
  st.signalsL.foldl (fun s p => writeSignal f s p.1 p.2 .undefined)
    { st with values := some [] }

/-- Models `Junction.prototype.remove` (lines 141-151): pushes `undefined` through
the key's signal when one exists (its subscribe listener then re-writes
`_values[key]`), and afterwards deletes the plain-value entry; returns
this. -/
def Junction.remove (f : String → JSV α → JSV α) (st : Junction α) (k : String) :
    Junction α :=
  let st1 :=
    match findEntry st.signalsL k with
    | some id => writeSignal f st k id .undefined
    | none => st
  { st1 with values := st1.values.map (fun vs => delEntry vs k) }

/-- The error message thrown by `Junction.prototype.signal` (line 165). -/
def signalErrMsg : String := "Cannot create signal: You need to configure a Signal-class."

/-- Models `Junction.prototype.signal` (lines 159-182).  Returns the memoized signal
for the key when one exists.  Otherwise it throws when no Signal class is
configured (modelled as `Except.error` paired with the unchanged state), else
it creates a signal: `new this.Signal()` yields a fresh cell whose initial
value is `undefined` (modelled from the spec's Signal capability), the
`setter` property is assigned (not invoked), the cell is seeded with
`_values[key]` when that own property exists — before `subscribe`, so the
seed runs no listener — then `onSignalChange` is subscribed and the signal
stored in `_signals`. -/
def Junction.signal (st : Junction α) (k : String) : Junction α × Except String Nat :=
  match findEntry st.signalsL k with
  | some id => (st, Except.ok id)
  | none =>
    if st.hasSignalClass then
      let id := st.nextSig
      let sv := updEntry st.sigVals id .undefined
      let sv :=
        match findEntry st.valuesL k with
        | some v => updEntry sv id v
        | none => sv
      ({ st with sigVals := sv, nextSig := id + 1,
                 signals := some (updEntry st.signalsL k id) }, Except.ok id)
    else (st, Except.error signalErrMsg)

/-- Models `Junction.prototype.dispose` (lines 190-203): calls `dispose()` on every
signal in `_signals` (logged per signal identifier), then sets both internal
mappings to `null` and `isDisposed` to `true`. -/
def Junction.dispose (st : Junction α) : Junction α :=
  { st with disposeLog := st.disposeLog ++ st.signalsL.map Prod.snd,
            signals := none, values := none, isDisposed := true }

/-- Models `Junction.prototype.constructor` (lines 48-51) together with the
prototype defaults (lines 18-43): fresh empty mappings, not disposed.
`hasSig` records whether a Signal class has been configured on the
prototype. -/
def Junction.init (α : Type) (hasSig : Bool) : Junction α :=
  { values := some [], signals := some [], sigVals := [], nextSig := 0,
    disposeLog := [], hasSignalClass := hasSig, isDisposed := false }

/-- The class-level state touched by the static `Junction.use`: a log of
plugin invocations, plugins identified by reference (modelled as `Nat`
ids). -/
structure JunctionClass where
  pluginLog : List Nat
deriving DecidableEq

/-- The static `Junction.use(plugin, config)` (lines 213-217): calls
`plugin(this, config)` unconditionally on every call and returns `this`
(the class); the returned state models that returned class. -/
def JunctionClass.use (cls : JunctionClass) (p : Nat) : JunctionClass :=
  { cls with pluginLog := cls.pluginLog ++ [p] }

/-- Runs `n` successive calls of `Junction.use` with the same plugin. -/
def JunctionClass.useN (cls : JunctionClass) (p : Nat) : Nat → JunctionClass
  | 0 => cls
  | n + 1 => (cls.use p).useN p n

/-- The keys currently known to the junction: keys of the plain-value
mapping together with keys of the signal mapping (spec wording for
`reset`: "every currently known key"). -/
def Junction.knownKeys (st : Junction α) : List String :=
  (keysOf st.valuesL ++ keysOf st.signalsL).dedup

/-- The spec-side reference construction for C6: apply `remove` to every
currently known key (in `knownKeys` order). -/
def Junction.removeAll (f : String → JSV α → JSV α) (st : Junction α) : Junction α :=
  st.knownKeys.foldl (fun s k => s.remove f k) st

/-- A JS heap of plain objects: the address of an object is its index. -/
structure JSHeap (α : Type) where
  objs : List (List (String × JSV α))
deriving DecidableEq

/-- Reading the object stored at an address. -/
def JSHeap.readObj (h : JSHeap α) (a : Nat) : List (String × JSV α) :=
  (h.objs.get? a).getD []

/-- Mutating the object at an address: `o` is the object's new contents
(this covers adding, changing and deleting entries). -/
def JSHeap.writeObj (h : JSHeap α) (a : Nat) (o : List (String × JSV α)) : JSHeap α :=
  ⟨h.objs.set a o⟩

/-- Models `Junction.prototype.get()` with no argument, at heap level
(lines 104-113): `result = {}` allocates a fresh object at a fresh address,
the loop copies the own entries of `_values` into it, and the address of the
copy is returned.  `valuesAddr` is the address of the junction's internal
`_values` object. -/
def getSnapshotH (h : JSHeap α) (valuesAddr : Nat) : JSHeap α × Nat :=
  (⟨h.objs ++ [snapshotCopy (h.readObj valuesAddr)]⟩, h.objs.length)

/-- A sample store over `Nat` values: a configured Signal class, `"a"` set to
`1` and then promoted to signal-backed. -/
def demoStore : Junction Nat :=
  (((Junction.init Nat true).set defaultSetter "a" (JSV.val 1)).signal "a").1

example : demoStore.get1 "a" = JSV.val 1 := by decide
example : sigRead demoStore 0 = JSV.val 1 := by decide
example : demoStore.signals = some [("a", 0)] := by decide
example : (demoStore.remove defaultSetter "a").getAll = [] := by decide
example : sigRead (demoStore.remove defaultSetter "a") 0 = JSV.undefined := by decide
example : (demoStore.reset defaultSetter).getAll = [("a", JSV.undefined)] := by decide
example : (Junction.removeAll defaultSetter demoStore).getAll = [] := by decide
example :
    (demoStore.set defaultSetter "a" (JSV.val 3)).get1 "a" = JSV.val 3 ∧
    sigRead (demoStore.set defaultSetter "a" (JSV.val 3)) 0 = JSV.val 3 := by decide

/-- The key's signal is recorded in `_signals` when `signal(key)` succeeds. -/
theorem signal_lookup_after (st st1 : Junction α) (k : String) (id : Nat)
    (h : st.signal k = (st1, Except.ok id)) :
    findEntry st1.signalsL k = some id := by
  unfold Junction.signal at h
  cases hf : findEntry st.signalsL k with
  | some i =>
      rw [hf] at h
      rw [Prod.mk.injEq] at h
      obtain ⟨rfl, h2⟩ := h
      injection h2 with h3
      exact h3 ▸ hf
  | none =>
      rw [hf] at h
      cases hc : st.hasSignalClass with
      | false => rw [hc] at h; simp at h
      | true =>
          rw [hc] at h
          simp only [if_true] at h
          rw [Prod.mk.injEq] at h
          obtain ⟨rfl, h2⟩ := h
          injection h2 with h3
          simp [Junction.signalsL, findEntry_updEntry_self, h3]

/-- C3: calling signal(k) twice on the same store returns the identical
signal instance and the second call creates no new signal: whenever the
first call returned (st1, id), calling signal(k) on st1 returns the very
same state st1 (so nothing — not even the creation counter — changes) and
the same signal id. -/
theorem Junction.signal_memoized (st st1 : Junction α) (k : String) (id : Nat)
    (h : st.signal k = (st1, Except.ok id)) :
    st1.signal k = (st1, Except.ok id) := by
  have hfind := signal_lookup_after st st1 k id h
  unfold Junction.signal
  rw [hfind]

/-- Witness for C3 at a concrete store. -/
theorem Junction.signal_memoized_wit :
    demoStore.signal "a" = (demoStore, Except.ok 0) :=
  Junction.signal_memoized ((Junction.init Nat true).set defaultSetter "a" (JSV.val 1))
    demoStore "a" 0 (by rfl)

/-- C2: on a store where k has no signal, with the default identity setter
hook, set(k, v) followed by get(k) returns exactly v.  The JS method ends
with `return this`, modelled by `Junction.set` returning the updated
junction state itself (chainability holds by construction). -/
theorem Junction.set_get_plain (st : Junction α) (vs : List (String × JSV α))
    (k : String) (v : JSV α)
    (hv : st.values = some vs) (hno : findEntry st.signalsL k = none) :
    (st.set defaultSetter k v).get1 k = v := by
  simp [Junction.set, setter, hno, defaultSetter, Junction.get1, Junction.valuesL, hv,
    jsRead, findEntry_updEntry_self]

/-- Witness for C2 at a concrete store. -/
theorem Junction.set_get_plain_wit :
    ((Junction.init Nat true).set defaultSetter "a" (JSV.val 2)).get1 "a" = JSV.val 2 :=
  Junction.set_get_plain (Junction.init Nat true) [] "a" (JSV.val 2) rfl rfl

/-- C1: with the default identity setter, promoting a key to signal-backed
preserves its last plain value (after set(k, v) and sig = signal(k), the
signal reads v); writing v2 through the signal updates get(k) to v2; and a
later set(k, v3) drives the signal to v3. -/
theorem Junction.signal_promotion_consistent (st : Junction α)
    (vs : List (String × JSV α)) (sg : List (String × Nat)) (k : String)
    (v v2 v3 : JSV α)
    (hv : st.values = some vs) (hs : st.signals = some sg)
    (hno : findEntry sg k = none) (hcls : st.hasSignalClass = true) :
    ∃ (st2 : Junction α) (id : Nat),
      (st.set defaultSetter k v).signal k = (st2, Except.ok id) ∧
      sigRead st2 id = v ∧
      (writeSignal defaultSetter st2 k id v2).get1 k = v2 ∧
      sigRead (st2.set defaultSetter k v3) id = v3 := by
  have hnoL : findEntry st.signalsL k = none := by simp [Junction.signalsL, hs, hno]
  have h1 : st.set defaultSetter k v = { st with values := some (updEntry vs k v) } := by
    simp [Junction.set, setter, hnoL, defaultSetter, hv]
  refine ⟨{ st with
      values := some (updEntry vs k v),
      signals := some (updEntry sg k st.nextSig),
      sigVals := updEntry (updEntry st.sigVals st.nextSig .undefined) st.nextSig v,
      nextSig := st.nextSig + 1 }, st.nextSig, ?_, ?_, ?_, ?_⟩
  · rw [h1]
    simp [Junction.signal, Junction.signalsL, Junction.valuesL, hs, hno, hcls,
      findEntry_updEntry_self]
  · simp [sigRead, jsRead, findEntry_updEntry_self]
  · simp [writeSignal, Junction.get1, Junction.valuesL, defaultSetter, jsRead,
      findEntry_updEntry_self]
  · simp [Junction.set, setter, Junction.signalsL, findEntry_updEntry_self, writeSignal,
      defaultSetter, sigRead, jsRead]

/-- Witness for C1 at a concrete store. -/
theorem Junction.signal_promotion_consistent_wit :
    ∃ (st2 : Junction Nat) (id : Nat),
      ((Junction.init Nat true).set defaultSetter "a" (JSV.val 1)).signal "a"
        = (st2, Except.ok id) ∧
      sigRead st2 id = JSV.val 1 ∧
      (writeSignal defaultSetter st2 "a" id (JSV.val 2)).get1 "a" = JSV.val 2 ∧
      sigRead (st2.set defaultSetter "a" (JSV.val 3)) id = JSV.val 3 :=
  Junction.signal_promotion_consistent (Junction.init Nat true) [] [] "a"
    (JSV.val 1) (JSV.val 2) (JSV.val 3) rfl rfl rfl rfl

/-- A non-idempotent overridden setter hook (maps undefined to 0 and n to
n + 1), used to observe how often the hook is applied. -/
def incSetter : String → JSV Nat → JSV Nat := fun _ v =>
  match v with
  | .undefined => JSV.val 0
  | .val n => JSV.val (n + 1)

/-- A store with an already-created signal for "a" (and no plain value). -/
def stHooked : Junction Nat := ((Junction.init Nat true).signal "a").1

/-- C4: evidence against the claim (and against the repository's own test
".setter should only by called once when there is also a signal").  With the
overridden hook f = incSetter, a single set("a", 5) on a signal-backed key
stores f("a", f("a", 5)) = 7 in the plain-value mapping — the hook runs once
in set (lines 71) and once more in the signal's subscribe listener
(lines 174-176) — while the signal itself holds f("a", 5) = 6; on the plain
path (no signal) the stored value is f("a", 5) = 6 as the claim states. -/
theorem Junction.setter_hook_applied_twice :
    (stHooked.set incSetter "a" (JSV.val 5)).get1 "a" = JSV.val 7 ∧
    incSetter "a" (JSV.val 5) = JSV.val 6 ∧
    sigRead (stHooked.set incSetter "a" (JSV.val 5)) 0 = JSV.val 6 ∧
    ((Junction.init Nat true).set incSetter "a" (JSV.val 5)).get1 "a" = JSV.val 6 := by
  decide

/-- C5 counterexample: calling use with the same plugin reference twice
invokes the plugin body twice, not once — Junction.use (lines 213-217) has
no already-applied bookkeeping. -/
theorem JunctionClass.use_twice_applies_twice_cex :
    ¬ ((((JunctionClass.mk []).use 7).use 7).pluginLog.count 7 = 1) := by decide

/-- C5 amended: every call of the static use(plugin, config) invokes the
plugin body (n calls add n invocations), and every call returns the store
type itself (modelled by use returning the updated class state). -/
theorem JunctionClass.use_applies_plugin_every_call (cls : JunctionClass) (p : Nat)
    (n : Nat) : (cls.useN p n).pluginLog.count p = cls.pluginLog.count p + n := by
  induction n generalizing cls with
  | zero => simp [JunctionClass.useN]
  | succ m ih =>
      rw [JunctionClass.useN, ih]
      simp [JunctionClass.use, List.count_append]
      omega

/-- The memoized-signal branch of Junction.prototype.signal. -/
theorem Junction.signal_of_found (st : Junction α) (k : String) (i : Nat)
    (h : findEntry st.signalsL k = some i) : st.signal k = (st, Except.ok i) := by
  unfold Junction.signal
  rw [h]

/-- The throwing branch of Junction.prototype.signal (lines 163-166). -/
theorem Junction.signal_of_missing_no_class (st : Junction α) (k : String)
    (h : findEntry st.signalsL k = none) (hc : st.hasSignalClass = false) :
    st.signal k = (st, Except.error signalErrMsg) := by
  unfold Junction.signal
  rw [h, hc]
  rfl

/-- The creating branch of Junction.prototype.signal returns ok. -/
theorem Junction.signal_snd_of_missing_class (st : Junction α) (k : String)
    (h : findEntry st.signalsL k = none) (hc : st.hasSignalClass = true) :
    (st.signal k).2 = Except.ok st.nextSig := by
  unfold Junction.signal
  rw [h, hc]
  rfl

/-- C8: signal(k) raises an error if and only if no signal for k exists yet
and no Signal class is configured; in that case the error carries exactly
the source message "Cannot create signal: You need to configure a
Signal-class." (which states that a Signal class is required) and the store
state is returned unchanged (the throw happens before any mutation). -/
theorem Junction.signal_error_iff (st : Junction α) (sg : List (String × Nat))
    (k : String) (hs : st.signals = some sg) :
    ((∃ e, (st.signal k).2 = Except.error e) ↔
      (findEntry sg k = none ∧ st.hasSignalClass = false)) ∧
    (findEntry sg k = none ∧ st.hasSignalClass = false →
      st.signal k = (st, Except.error signalErrMsg)) := by
  have hsg : st.signalsL = sg := by simp [Junction.signalsL, hs]
  constructor
  · constructor
    · rintro ⟨e, he⟩
      cases hf : findEntry sg k with
      | some i =>
          rw [Junction.signal_of_found st k i (by rw [hsg]; exact hf)] at he
          simp at he
      | none =>
          cases hc : st.hasSignalClass with
          | true =>
              rw [Junction.signal_snd_of_missing_class st k (by rw [hsg]; exact hf) hc]
                at he
              simp at he
          | false => exact ⟨rfl, rfl⟩
    · rintro ⟨hf, hc⟩
      refine ⟨signalErrMsg, ?_⟩
      rw [Junction.signal_of_missing_no_class st k (by rw [hsg]; exact hf) hc]
  · rintro ⟨hf, hc⟩
    exact Junction.signal_of_missing_no_class st k (by rw [hsg]; exact hf) hc

/-- Witness for C8 at a concrete store with no Signal class configured. -/
theorem Junction.signal_error_iff_wit :
    ((∃ e, ((Junction.init Nat false).signal "a").2 = Except.error e) ↔
      (findEntry ([] : List (String × Nat)) "a" = none ∧
        (Junction.init Nat false).hasSignalClass = false)) ∧
    (findEntry ([] : List (String × Nat)) "a" = none ∧
        (Junction.init Nat false).hasSignalClass = false →
      (Junction.init Nat false).signal "a"
        = (Junction.init Nat false, Except.error signalErrMsg)) :=
  Junction.signal_error_iff (Junction.init Nat false) [] "a" rfl

/-- C9: dispose() logs exactly one dispose() call for each signal the store
created and none for any other signal, then sets both internal mappings to
null and isDisposed to true; sg may be empty (a store that never created a
signal). -/
theorem Junction.dispose_spec (st : Junction α) (sg : List (String × Nat))
    (hs : st.signals = some sg) (hnd : (sg.map Prod.snd).Nodup)
    (hlog : st.disposeLog = []) :
    st.dispose.values = none ∧ st.dispose.signals = none ∧
    st.dispose.isDisposed = true ∧
    (∀ id ∈ sg.map Prod.snd, st.dispose.disposeLog.count id = 1) ∧
    (∀ id, ¬ id ∈ sg.map Prod.snd → st.dispose.disposeLog.count id = 0) := by
  have hsg : st.signalsL = sg := by simp [Junction.signalsL, hs]
  refine ⟨rfl, rfl, rfl, ?_, ?_⟩
  · intro id hid
    simp only [Junction.dispose, hlog, hsg, List.nil_append]
    exact List.count_eq_one_of_mem hnd hid
  · intro id hid
    simp only [Junction.dispose, hlog, hsg, List.nil_append]
    exact List.count_eq_zero.2 hid

/-- Witness for C9 at a concrete store owning one signal. -/
theorem Junction.dispose_spec_wit :
    demoStore.dispose.values = none ∧ demoStore.dispose.signals = none ∧
    demoStore.dispose.isDisposed = true ∧
    (∀ id ∈ [("a", 0)].map Prod.snd, demoStore.dispose.disposeLog.count id = 1) ∧
    (∀ id, ¬ id ∈ [("a", 0)].map Prod.snd → demoStore.dispose.disposeLog.count id = 0) :=
  Junction.dispose_spec demoStore [("a", 0)] (by decide) (by decide) (by decide)

/-- get? after set at a different index. -/
theorem listGet?_set_ne {β : Type} (l : List β) (i j : Nat) (x : β) (h : i ≠ j) :
    (l.set i x).get? j = l.get? j := by
  induction l generalizing i j with
  | nil => rfl
  | cons b rest ih =>
      cases i with
      | zero =>
          cases j with
          | zero => exact absurd rfl h
          | succ j' => rfl
      | succ i' =>
          cases j with
          | zero => rfl
          | succ j' => exact ih i' j' (fun hh => h (by rw [hh]))

/-- get? of an append, inside the left list. -/
theorem listGet?_append_left {β : Type} (l1 l2 : List β) (j : Nat)
    (h : j < l1.length) : (l1 ++ l2).get? j = l1.get? j := by
  induction l1 generalizing j with
  | nil => cases h
  | cons b rest ih =>
      cases j with
      | zero => rfl
      | succ j' => exact ih j' (Nat.lt_of_succ_lt_succ h)

/-- C10: get() with no argument returns a freshly allocated snapshot object,
never the internal _values object: the returned address differs from the
store's _values address, and however the snapshot object is mutated
afterwards (o is its new contents), the internal _values object, every
subsequent get(k), and the contents of every subsequent get() snapshot are
unchanged. -/
theorem JSHeap.get_snapshot_fresh (h : JSHeap α) (va : Nat)
    (hva : va < h.objs.length) :
    (getSnapshotH h va).2 ≠ va ∧
    ∀ o : List (String × JSV α),
      ((getSnapshotH h va).1.writeObj (getSnapshotH h va).2 o).readObj va
        = h.readObj va ∧
      (∀ k, jsRead (((getSnapshotH h va).1.writeObj (getSnapshotH h va).2 o).readObj va) k
        = jsRead (h.readObj va) k) ∧
      snapshotCopy (((getSnapshotH h va).1.writeObj (getSnapshotH h va).2 o).readObj va)
        = snapshotCopy (h.readObj va) := by
  have hne : h.objs.length ≠ va := (Nat.ne_of_lt hva).symm
  refine ⟨hne, ?_⟩
  intro o
  have key : ((getSnapshotH h va).1.writeObj (getSnapshotH h va).2 o).readObj va
      = h.readObj va := by
    simp only [getSnapshotH, JSHeap.writeObj, JSHeap.readObj]
    rw [listGet?_set_ne _ _ _ _ hne, listGet?_append_left _ _ _ hva]
  exact ⟨key, fun k => by rw [key], by rw [key]⟩

/-- Witness for C10 at a concrete one-object heap. -/
theorem JSHeap.get_snapshot_fresh_wit :
    (getSnapshotH (JSHeap.mk [[("a", JSV.val 1)]]) 0).2 ≠ 0 ∧
    ∀ o : List (String × JSV Nat),
      ((getSnapshotH (JSHeap.mk [[("a", JSV.val 1)]]) 0).1.writeObj
          (getSnapshotH (JSHeap.mk [[("a", JSV.val 1)]]) 0).2 o).readObj 0
        = (JSHeap.mk [[("a", JSV.val 1)]]).readObj 0 ∧
      (∀ k, jsRead (((getSnapshotH (JSHeap.mk [[("a", JSV.val 1)]]) 0).1.writeObj
          (getSnapshotH (JSHeap.mk [[("a", JSV.val 1)]]) 0).2 o).readObj 0) k
        = jsRead ((JSHeap.mk [[("a", JSV.val 1)]]).readObj 0) k) ∧
      snapshotCopy (((getSnapshotH (JSHeap.mk [[("a", JSV.val 1)]]) 0).1.writeObj
          (getSnapshotH (JSHeap.mk [[("a", JSV.val 1)]]) 0).2 o).readObj 0)
        = snapshotCopy ((JSHeap.mk [[("a", JSV.val 1)]]).readObj 0) :=
  JSHeap.get_snapshot_fresh (JSHeap.mk [[("a", JSV.val 1)]]) 0 (by decide)

@[simp] theorem keysOf_append {κ β : Type} (l1 l2 : List (κ × β)) :
    keysOf (l1 ++ l2) = keysOf l1 ++ keysOf l2 := List.map_append _ _ _

/-- Folding property writes over pairwise-distinct fresh keys appends the
written entries in order. -/
theorem foldl_updEntry_fresh {κ γ β : Type} [DecidableEq κ]
    (l : List (κ × γ)) (g : κ × γ → β) (acc : List (κ × β))
    (hnd : (keysOf l).Nodup) (hdisj : ∀ k ∈ keysOf l, ¬ k ∈ keysOf acc) :
    l.foldl (fun a p => updEntry a p.1 (g p)) acc
      = acc ++ l.map (fun p => (p.1, g p)) := by
  induction l generalizing acc with
  | nil => simp
  | cons p rest ih =>
      simp only [keysOf_cons, List.nodup_cons] at hnd
      have hp : ¬ p.1 ∈ keysOf acc := hdisj p.1 (by simp)
      have hdisj2 : ∀ k ∈ keysOf rest, ¬ k ∈ keysOf (acc ++ [(p.1, g p)]) := by
        intro k hk
        have hkp : k ≠ p.1 := fun he => hnd.1 (he ▸ hk)
        simp [keysOf_append, hkp, hdisj k (List.mem_cons_of_mem _ hk)]
      rw [List.foldl_cons, updEntry_absent acc p.1 (g p) hp, ih _ hnd.2 hdisj2]
      simp

/-- The get() copy loop reproduces `_values` exactly (keys are unique in a
JS object). -/
theorem snapshotCopy_eq_self (l : List (String × JSV α)) (hnd : (keysOf l).Nodup) :
    snapshotCopy l = l := by
  unfold snapshotCopy
  rw [foldl_updEntry_fresh l (fun p => jsRead l p.1) [] hnd (by simp [keysOf])]
  have hvals : ∀ p ∈ l, (p.1, jsRead l p.1) = id p := by
    intro p hp
    have hfind : findEntry l p.1 = some p.2 := findEntry_of_mem_nodup l p.1 p.2 hnd hp
    simp [jsRead, hfind]
  calc ([] : List (String × JSV α)) ++ l.map (fun p => (p.1, jsRead l p.1))
      = l.map (fun p => (p.1, jsRead l p.1)) := List.nil_append _
    _ = l.map id := List.map_congr_left hvals
    _ = l := List.map_id l

/-- Keys produced by the copy loop all come from the source object. -/
theorem mem_keysOf_foldl_updEntry {κ γ β : Type} [DecidableEq κ]
    (l : List (κ × γ)) (g : κ × γ → β) (acc : List (κ × β)) (k : κ)
    (h : k ∈ keysOf (l.foldl (fun a p => updEntry a p.1 (g p)) acc)) :
    k ∈ keysOf acc ∨ k ∈ keysOf l := by
  induction l generalizing acc with
  | nil => exact Or.inl h
  | cons p rest ih =>
      rcases ih (updEntry acc p.1 (g p)) h with h1 | h1
      · rcases (mem_keysOf_updEntry acc p.1 k (g p)).1 h1 with h2 | h2
        · exact Or.inl h2
        · exact Or.inr (by simp [h2])
      · exact Or.inr (List.mem_cons_of_mem _ h1)

/-- Membership in the keys of a deleted object. -/
theorem mem_keysOf_delEntry {κ β : Type} [DecidableEq κ]
    (l : List (κ × β)) (k k' : κ) :
    k' ∈ keysOf (delEntry l k) ↔ k' ∈ keysOf l ∧ k' ≠ k := by
  induction l with
  | nil => simp
  | cons p rest ih =>
      by_cases h : p.1 = k
      · subst h
        rw [delEntry_cons, if_pos rfl, ih]
        simp only [keysOf_cons, List.mem_cons]
        constructor
        · rintro ⟨h1, h2⟩
          exact ⟨Or.inr h1, h2⟩
        · rintro ⟨h1 | h1, h2⟩
          · exact absurd h1 h2
          · exact ⟨h1, h2⟩
      · simp only [delEntry_cons, if_neg h, keysOf_cons, List.mem_cons, ih]
        constructor
        · rintro (h1 | ⟨h1, h2⟩)
          · exact ⟨Or.inl h1, fun he => h (by rw [← h1, ← he])⟩
          · exact ⟨Or.inr h1, h2⟩
        · rintro ⟨h1 | h1, h2⟩
          · exact Or.inl h1
          · exact Or.inr ⟨h1, h2⟩

/-- Deleting every key of an object in turn empties it. -/
theorem foldl_delEntry_all {κ β : Type} [DecidableEq κ] (ks : List κ)
    (vs : List (κ × β)) (h : ∀ k ∈ keysOf vs, k ∈ ks) :
    ks.foldl (fun a k => delEntry a k) vs = [] := by
  induction ks generalizing vs with
  | nil =>
      cases vs with
      | nil => rfl
      | cons p rest => exact absurd (h p.1 (by simp)) (by simp)
  | cons k rest ih =>
      simp only [List.foldl_cons]
      apply ih
      intro k' hk'
      rcases (mem_keysOf_delEntry vs k k').1 hk' with ⟨h1, h2⟩
      rcases List.mem_cons.1 (h k' h1) with h3 | h3
      · exact absurd h3 h2
      · exact h3

/-- Values written by reset: each entry of the fold result is read as
`undefined` when its id was written, otherwise as before. -/
theorem jsRead_foldl_snd_not_mem (sg : List (String × Nat))
    (base : List (Nat × JSV α)) (id : Nat) (hid : ¬ id ∈ sg.map Prod.snd) :
    jsRead (sg.foldl (fun a p => updEntry a p.2 JSV.undefined) base) id
      = jsRead base id := by
  induction sg generalizing base with
  | nil => rfl
  | cons p rest ih =>
      simp only [List.map_cons, List.mem_cons] at hid
      push_neg at hid
      rw [List.foldl_cons, ih _ hid.2]
      simp [jsRead, findEntry_updEntry_ne _ _ _ _ hid.1]

/-- After pushing `undefined` through every signal of `sg`, each of those
signals reads `undefined`. -/
theorem jsRead_foldl_snd_undef (sg : List (String × Nat))
    (base : List (Nat × JSV α)) (id : Nat) (hid : id ∈ sg.map Prod.snd) :
    jsRead (sg.foldl (fun a p => updEntry a p.2 JSV.undefined) base) id = JSV.undefined := by
  induction sg generalizing base with
  | nil => simp at hid
  | cons p rest ih =>
      rw [List.foldl_cons]
      by_cases h : id ∈ rest.map Prod.snd
      · exact ih _ h
      · have hidp : id = p.2 := by
          simp only [List.map_cons, List.mem_cons] at hid
          tauto
        rw [jsRead_foldl_snd_not_mem rest _ id h]
        simp [jsRead, hidp, findEntry_updEntry_self]

/-- Component-wise characterization of the fold inside reset
(lines 126-130). -/
theorem resetFold_spec (f : String → JSV α → JSV α) (sg : List (String × Nat))
    (st0 : Junction α) (vs0 : List (String × JSV α)) (hv : st0.values = some vs0) :
    (sg.foldl (fun s p => writeSignal f s p.1 p.2 .undefined) st0).values
        = some (sg.foldl (fun a p => updEntry a p.1 (f p.1 .undefined)) vs0) ∧
    (sg.foldl (fun s p => writeSignal f s p.1 p.2 .undefined) st0).sigVals
        = sg.foldl (fun a p => updEntry a p.2 JSV.undefined) st0.sigVals ∧
    (sg.foldl (fun s p => writeSignal f s p.1 p.2 .undefined) st0).signals = st0.signals := by
  induction sg generalizing st0 vs0 with
  | nil => exact ⟨hv, rfl, rfl⟩
  | cons p rest ih =>
      simp only [List.foldl_cons]
      exact ih (writeSignal f st0 p.1 p.2 .undefined) (updEntry vs0 p.1 (f p.1 .undefined))
        (by simp [writeSignal, hv])

/-- Component-wise characterization of reset. -/
theorem reset_spec (f : String → JSV α → JSV α) (st : Junction α)
    (sg : List (String × Nat)) (hs : st.signals = some sg) :
    (st.reset f).values
        = some (sg.foldl (fun a p => updEntry a p.1 (f p.1 .undefined)) []) ∧
    (st.reset f).sigVals = sg.foldl (fun a p => updEntry a p.2 JSV.undefined) st.sigVals ∧
    (st.reset f).signals = some sg := by
  unfold Junction.reset
  have hsg : st.signalsL = sg := by simp [Junction.signalsL, hs]
  rw [hsg]
  have h := resetFold_spec f sg { st with values := some [] } [] rfl
  exact ⟨h.1, h.2.1, by rw [h.2.2]; exact hs⟩

/-- Component-wise characterization of remove (lines 141-151). -/
theorem remove_components (f : String → JSV α → JSV α) (st : Junction α) (k : String)
    (vs : List (String × JSV α)) (sg : List (String × Nat))
    (hv : st.values = some vs) (hs : st.signals = some sg) :
    (st.remove f k).values = some (delEntry vs k) ∧
    (st.remove f k).signals = some sg ∧
    (findEntry sg k = none → (st.remove f k).sigVals = st.sigVals) ∧
    (∀ id, findEntry sg k = some id →
      (st.remove f k).sigVals = updEntry st.sigVals id JSV.undefined) := by
  unfold Junction.remove
  have hsg : st.signalsL = sg := by simp [Junction.signalsL, hs]
  rw [hsg]
  cases hf : findEntry sg k with
  | some id =>
      refine ⟨by simp [writeSignal, hv, delEntry_updEntry_self], by simp [writeSignal, hs],
        fun h => by simp at h, ?_⟩
      intro id' h
      cases h
      simp [writeSignal]
  | none =>
      refine ⟨by simp [hv], hs, fun _ => rfl, ?_⟩
      intro id' h
      cases h

/-- remove on a key with neither a signal nor a plain value is a no-op. -/
theorem remove_unknown (f : String → JSV α → JSV α) (st : Junction α) (k : String)
    (vs : List (String × JSV α)) (sg : List (String × Nat))
    (hv : st.values = some vs) (hs : st.signals = some sg)
    (hfno : findEntry sg k = none) (hkv : ¬ k ∈ keysOf vs) :
    st.remove f k = st := by
  unfold Junction.remove
  have hsg : st.signalsL = sg := by simp [Junction.signalsL, hs]
  rw [hsg, hfno]
  cases st with
  | mk values signals sigVals nextSig disposeLog hasSignalClass isDisposed =>
      simp only at hv
      simp [hv, delEntry_absent vs k hkv]

/-- Components of the remove-every-known-key fold: values are deleted one by
one and the signal mapping is untouched. -/
theorem removeFold_values (f : String → JSV α → JSV α) (ks : List String)
    (st : Junction α) (vs : List (String × JSV α)) (sg : List (String × Nat))
    (hv : st.values = some vs) (hs : st.signals = some sg) :
    ((ks.foldl (fun s k => s.remove f k) st).values
        = some (ks.foldl (fun a k => delEntry a k) vs)) ∧
    (ks.foldl (fun s k => s.remove f k) st).signals = some sg := by
  induction ks generalizing st vs with
  | nil => exact ⟨hv, hs⟩
  | cons k rest ih =>
      obtain ⟨h1, h2, _, _⟩ := remove_components f st k vs sg hv hs
      simp only [List.foldl_cons]
      exact ih (st.remove f k) (delEntry vs k) h1 h2

/-- Removing more keys never revives a signal that already reads
`undefined` (every write performed by remove is `undefined`). -/
theorem removeFold_preserves_sigRead_undef (f : String → JSV α → JSV α)
    (ks : List String) (st : Junction α) (vs : List (String × JSV α))
    (sg : List (String × Nat)) (hv : st.values = some vs) (hs : st.signals = some sg)
    (id : Nat) (h : sigRead st id = JSV.undefined) :
    sigRead (ks.foldl (fun s k => s.remove f k) st) id = JSV.undefined := by
  induction ks generalizing st vs with
  | nil => exact h
  | cons k0 rest ih =>
      obtain ⟨h1, h2, hC1, hC2⟩ := remove_components f st k0 vs sg hv hs
      simp only [List.foldl_cons]
      apply ih (st.remove f k0) (delEntry vs k0) h1 h2
      cases hf : findEntry sg k0 with
      | none => rw [sigRead, hC1 hf]; exact h
      | some j =>
          rw [sigRead, hC2 j hf]
          by_cases hij : id = j
          · subst hij
            simp [jsRead, findEntry_updEntry_self]
          · rw [jsRead, findEntry_updEntry_ne _ _ _ _ hij]
            exact h

/-- After removing every key in `ks`, each store-created signal whose key is
in `ks` reads `undefined`. -/
theorem removeFold_sigRead_undef (f : String → JSV α → JSV α) (ks : List String)
    (st : Junction α) (vs : List (String × JSV α)) (sg : List (String × Nat))
    (hv : st.values = some vs) (hs : st.signals = some sg)
    (hnd : (keysOf sg).Nodup) (k : String) (id : Nat)
    (hm : (k, id) ∈ sg) (hk : k ∈ ks) :
    sigRead (ks.foldl (fun s k' => s.remove f k') st) id = JSV.undefined := by
  induction ks generalizing st vs with
  | nil => cases hk
  | cons k0 rest ih =>
      obtain ⟨h1, h2, hC1, hC2⟩ := remove_components f st k0 vs sg hv hs
      simp only [List.foldl_cons]
      rcases List.mem_cons.1 hk with he | hr
      · subst he
        have hf : findEntry sg k = some id := findEntry_of_mem_nodup sg k id hnd hm
        have hstep : sigRead (st.remove f k) id = JSV.undefined := by
          rw [sigRead, hC2 id hf]
          simp [jsRead, findEntry_updEntry_self]
        exact removeFold_preserves_sigRead_undef f rest (st.remove f k)
          (delEntry vs k) sg h1 h2 id hstep
      · exact ih (st.remove f k0) (delEntry vs k0) h1 h2 hr

/-- A mapping all of whose entries are `undefined` reads `undefined` at
every key. -/
theorem jsRead_all_undef (l : List (String × JSV α)) (k : String)
    (h : ∀ p ∈ l, p.2 = JSV.undefined) : jsRead l k = JSV.undefined := by
  cases hf : findEntry l k with
  | none => simp [jsRead, hf]
  | some v =>
      have := h (k, v) (mem_of_findEntry_eq_some l k v hf)
      simp only at this
      simp [jsRead, hf, this]

/-- Mapping every entry to `undefined` keeps the key list. -/
theorem keysOf_map_undef (sg : List (String × Nat)) :
    keysOf (sg.map (fun p => (p.1, (JSV.undefined : JSV α)))) = keysOf sg := by
  induction sg with
  | nil => rfl
  | cons p rest ih =>
      simp only [List.map_cons, keysOf_cons]
      rw [ih]

/-- C7 counterexample: after remove("a") on a signal-backed key, "a" does
NOT appear in the get() snapshot, whereas after set("a", undefined) it does:
remove (line 148) deletes the _values entry after the signal push, so
removal and "set to the absent value" are different post-states. -/
theorem Junction.remove_deletes_snapshot_entry_cex :
    keysOf ((demoStore.remove defaultSetter "a").getAll) = ([] : List String) ∧
    keysOf ((demoStore.set defaultSetter "a" JSV.undefined).getAll) = ["a"] := by decide

/-- C7 amended: remove(k) on a signal-backed key pushes undefined through
the signal (whose listener re-syncs _values[k] to undefined) and then
deletes the _values entry, so afterwards the signal reads undefined, get(k)
is undefined, and k does not appear in the get() snapshot; remove on a key
with neither a signal nor a plain value returns the store unchanged (no
error is raised; remove is total and chainable). -/
theorem Junction.remove_spec (st : Junction α) (vs : List (String × JSV α))
    (sg : List (String × Nat)) (k : String) (id : Nat)
    (hv : st.values = some vs) (hs : st.signals = some sg)
    (hsig : findEntry sg k = some id) :
    sigRead (st.remove defaultSetter k) id = JSV.undefined ∧
    (st.remove defaultSetter k).get1 k = JSV.undefined ∧
    ¬ k ∈ keysOf ((st.remove defaultSetter k).getAll) ∧
    (∀ k', findEntry sg k' = none → ¬ k' ∈ keysOf vs →
      st.remove defaultSetter k' = st) := by
  obtain ⟨hvals, hsigs, _, hC2⟩ := remove_components defaultSetter st k vs sg hv hs
  refine ⟨?_, ?_, ?_, ?_⟩
  · rw [sigRead, hC2 id hsig]
    simp [jsRead, findEntry_updEntry_self]
  · simp [Junction.get1, Junction.valuesL, hvals, jsRead, findEntry_delEntry_self]
  · intro hmem
    have hvl : (st.remove defaultSetter k).valuesL = delEntry vs k := by
      simp [Junction.valuesL, hvals]
    rw [Junction.getAll, hvl] at hmem
    unfold snapshotCopy at hmem
    rcases mem_keysOf_foldl_updEntry (delEntry vs k) _ [] k hmem with h | h
    · simp [keysOf] at h
    · exact absurd h ((findEntry_eq_none_iff _ _).1 (findEntry_delEntry_self vs k))
  · intro k' h1 h2
    exact remove_unknown defaultSetter st k' vs sg hv hs h1 h2

/-- Witness for C7 at a concrete store. -/
theorem Junction.remove_spec_wit :
    sigRead (demoStore.remove defaultSetter "a") 0 = JSV.undefined ∧
    (demoStore.remove defaultSetter "a").get1 "a" = JSV.undefined ∧
    ¬ "a" ∈ keysOf ((demoStore.remove defaultSetter "a").getAll) ∧
    (∀ k', findEntry [("a", 0)] k' = none →
      ¬ k' ∈ keysOf [("a", JSV.val (1 : Nat))] →
      demoStore.remove defaultSetter k' = demoStore) :=
  Junction.remove_spec demoStore [("a", JSV.val 1)] [("a", 0)] "a" 0
    (by decide) (by decide) (by decide)

/-- C6 counterexample: reset leaves the signal-backed key "a" present in the
get() snapshot with value undefined (its listener re-adds the entry after
`_values` is replaced), while removing every known key leaves an empty
snapshot — so reset() is not equivalent to remove-for-every-known-key on the
observable snapshot. -/
theorem Junction.reset_vs_removeAll_cex :
    ¬ ((demoStore.reset defaultSetter).getAll
        = (Junction.removeAll defaultSetter demoStore).getAll) := by decide

/-- C6 amended (default setter): after reset(), every get(k) and the value
of every store-created signal agree with the state reached by removing every
known key (everything reads undefined), and reset returns the store; but the
no-argument get() snapshots differ: after reset() the snapshot maps each
signal-backed key to undefined (in signal order), whereas after removing
every known key the snapshot is empty. -/
theorem Junction.reset_equiv_removeAll_on_reads (st : Junction α)
    (vs : List (String × JSV α)) (sg : List (String × Nat))
    (hv : st.values = some vs) (hs : st.signals = some sg)
    (hnd : (keysOf sg).Nodup) :
    (∀ k, (st.reset defaultSetter).get1 k
        = (Junction.removeAll defaultSetter st).get1 k) ∧
    (∀ p ∈ sg, sigRead (st.reset defaultSetter) p.2
        = sigRead (Junction.removeAll defaultSetter st) p.2) ∧
    (st.reset defaultSetter).getAll = sg.map (fun p => (p.1, JSV.undefined)) ∧
    (Junction.removeAll defaultSetter st).getAll = [] := by
  obtain ⟨rv, rs, rg⟩ := reset_spec defaultSetter st sg hs
  have hrval : (st.reset defaultSetter).values
      = some (sg.map (fun p => (p.1, JSV.undefined))) := by
    rw [rv, foldl_updEntry_fresh sg (fun p => defaultSetter p.1 JSV.undefined) [] hnd
      (by simp [keysOf])]
    simp [defaultSetter]
  have hkk : Junction.knownKeys st = (keysOf vs ++ keysOf sg).dedup := by
    simp [Junction.knownKeys, Junction.valuesL, Junction.signalsL, hv, hs]
  obtain ⟨rav, ras⟩ :=
    removeFold_values defaultSetter (Junction.knownKeys st) st vs sg hv hs
  have hremval : (Junction.removeAll defaultSetter st).values = some [] := by
    rw [Junction.removeAll, rav, foldl_delEntry_all]
    intro k hk
    rw [hkk]
    exact List.mem_dedup.2 (List.mem_append_left _ hk)
  refine ⟨?_, ?_, ?_, ?_⟩
  · intro k
    have h1 : (st.reset defaultSetter).get1 k = JSV.undefined := by
      rw [Junction.get1, Junction.valuesL, hrval]
      refine jsRead_all_undef _ k ?_
      intro p hp
      rcases List.mem_map.1 hp with ⟨q, _, hq⟩
      rw [← hq]
    have h2 : (Junction.removeAll defaultSetter st).get1 k = JSV.undefined := by
      rw [Junction.get1, Junction.valuesL, hremval]
      rfl
    rw [h1, h2]
  · intro p hp
    have h1 : sigRead (st.reset defaultSetter) p.2 = JSV.undefined := by
      rw [sigRead, rs]
      exact jsRead_foldl_snd_undef sg st.sigVals p.2 (List.mem_map_of_mem Prod.snd hp)
    have h2 : sigRead (Junction.removeAll defaultSetter st) p.2 = JSV.undefined := by
      rw [Junction.removeAll]
      exact removeFold_sigRead_undef defaultSetter (Junction.knownKeys st) st vs sg
        hv hs hnd p.1 p.2 hp
        (by rw [hkk]
            exact List.mem_dedup.2
              (List.mem_append_right _ (List.mem_map_of_mem Prod.fst hp)))
    rw [h1, h2]
  · rw [Junction.getAll, Junction.valuesL, hrval]
    have hk : ((some (sg.map (fun p => (p.1, (JSV.undefined : JSV α))))).getD [])
        = sg.map (fun p => (p.1, JSV.undefined)) := rfl
    rw [hk]
    refine snapshotCopy_eq_self _ ?_
    rw [keysOf_map_undef]
    exact hnd
  · rw [Junction.getAll, Junction.valuesL, hremval]
    rfl

/-- Witness for C6 at a concrete store. -/
theorem Junction.reset_equiv_removeAll_on_reads_wit :
    (∀ k, (demoStore.reset defaultSetter).get1 k
        = (Junction.removeAll defaultSetter demoStore).get1 k) ∧
    (∀ p ∈ [("a", 0)], sigRead (demoStore.reset defaultSetter) p.2
        = sigRead (Junction.removeAll defaultSetter demoStore) p.2) ∧
    (demoStore.reset defaultSetter).getAll
        = [("a", 0)].map (fun p => (p.1, (JSV.undefined : JSV Nat))) ∧
    (Junction.removeAll defaultSetter demoStore).getAll = [] :=
  Junction.reset_equiv_removeAll_on_reads demoStore [("a", JSV.val 1)] [("a", 0)]
    (by decide) (by decide) (by decide)

end AlamidJunction
